import Mathlib

/-!
Verification of the recipe-management backend (user accounts, token auth,
owner-scoped CRUD over recipes/tags/ingredients).

The development is a shallow embedding of the behavioural core:

* `core/config/models.py` — the custom `UserManager` (`create_user`,
  `create_superuser`) and the `Recipe` / `Tag` models;
* `core/recipe/views.py` — `RecipeModelViewSet.get_queryset`,
  `_params_to_int`, `BaseRecipeAttrGenericViewSet.get_queryset`, and the
  DRF detail-route behaviour (`get_object` over the scoped queryset,
  surfacing an empty scoped lookup as NotFound);
* `core/recipe/serializers.py` — `RecipeModelSerializer.create`,
  `RecipeModelSerializer.update`, `_get_or_create_tags`,
  `_get_or_create_ingredients`.

Stores are lists of records, machine-generated primary keys are `Nat`
counters, Django querysets are list pipelines in which many-to-many
`filter` steps are modelled as SQL-style joins (one output row per
matching association, collapsed by the trailing `.distinct()`), and
Python exceptions are `Except` error values.
-/

namespace RecipeApp

/-! ## Identity store (`core/config/models.py`, `UserManager`) -/

/-- The `**extra_fields` keyword dictionary accepted by `create_user` /
`create_superuser`, restricted to the boolean flags the manager inspects.
`none` means the caller did not pass the keyword. -/
structure ExtraFields where
  is_active : Option Bool := none
  is_verified : Option Bool := none
  is_staff : Option Bool := none
  is_superuser : Option Bool := none
deriving Repr, DecidableEq

/-- A persisted `User` row.  `password` holds the derived hash, never the
raw password.  Field defaults mirror the model: `is_active=True`, the
other flags `False`. -/
structure User where
  id : Nat
  email : String
  username : String
  password : String
  is_active : Bool
  is_verified : Bool
  is_staff : Bool
  is_superuser : Bool
deriving Repr, DecidableEq

/-- The user table plus its auto-increment primary-key counter. -/
structure UserStore where
  users : List User := []
  nextUserId : Nat := 1
deriving Repr, DecidableEq

/-- Failures of the user factories: the two `ValueError`s raised by
`create_user`, the two raised by `create_superuser`, and the database
unique-constraint violation on email/username. -/
inductive UserError where
  | emailMustBeSet
  | usernameMustBeSet
  | staffNotTrue
  | superuserNotTrue
  | integrityError
deriving Repr, DecidableEq

/-- Character-level whitespace strip (Python `str.strip()` for the ASCII
whitespace that can reach this code). -/
def stripChars (cs : List Char) : List Char :=
  ((cs.dropWhile Char.isWhitespace).reverse.dropWhile Char.isWhitespace).reverse

/-- `BaseUserManager.normalize_email`: strip, split at the *last* `@`,
lowercase the domain part only; an email without `@` is returned
unchanged. -/
def normalize_email (email : String) : String :=
  let s := stripChars email.toList
  let pair := s.reverse.span (fun c => c != '@')
  match pair.2 with
  | [] => email
  | _ :: localRev =>
      String.mk (localRev.reverse ++ '@' :: (pair.1.reverse.map Char.toLower))

/-- `user.set_password`: password hashing is an external primitive (out of
scope per the spec); modelled as an injective tagging function. -/
def set_password (raw : String) : String := "hashed:" ++ raw

/-- `UserManager.create_user`: reject empty email/username, normalize the
email, build the row with flags taken from `extra_fields` (model defaults
otherwise), hash the password, and save (the save enforces the unique
constraints on email and username). -/
def create_user (s : UserStore) (email username password : String)
    (extra : ExtraFields) : Except UserError (UserStore × User) :=
  if email = "" then .error .emailMustBeSet
  else if username = "" then .error .usernameMustBeSet
  else
    let email := normalize_email email
    let user : User :=
      { id := s.nextUserId
        email := email
        username := username
        password := set_password password
        is_active := extra.is_active.getD true
        is_verified := extra.is_verified.getD false
        is_staff := extra.is_staff.getD false
        is_superuser := extra.is_superuser.getD false }
    if s.users.any (fun u => u.email == email || u.username == username) then
      .error .integrityError
    else
      .ok ({ users := s.users ++ [user], nextUserId := s.nextUserId + 1 }, user)

/-- `UserManager.create_superuser`: `setdefault` the four flags to `True`
(an explicitly passed value wins), then reject `is_staff`/`is_superuser`
not `True`, then delegate to `create_user`. -/
def create_superuser (s : UserStore) (email username password : String)
    (extra : ExtraFields) : Except UserError (UserStore × User) :=
  let extra2 : ExtraFields :=
    { is_active := some (extra.is_active.getD true)
      is_verified := some (extra.is_verified.getD true)
      is_staff := some (extra.is_staff.getD true)
      is_superuser := some (extra.is_superuser.getD true) }
  if extra2.is_staff ≠ some true then .error .staffNotTrue
  else if extra2.is_superuser ≠ some true then .error .superuserNotTrue
  else create_user s email username password extra2

/-- Request-level behaviour of a `create_user` call: a raised error
propagates and the store is left exactly as it was. -/
def runCreateUser (s : UserStore) (email username password : String)
    (extra : ExtraFields) : UserStore × Option User :=
  match create_user s email username password extra with
  | .ok (s2, u) => (s2, some u)
  | .error _ => (s, none)

/-! ## Resource store (`core/config/models.py`: `Recipe`, `Tag`) -/

/-- A `Tag` row: `{id, user (owner FK), name}`. -/
structure Tag where
  id : Nat
  user : Nat
  name : String
deriving Repr, DecidableEq

/-- Modelled from the spec: the `Ingredient` model is not part of the
given source tree (only its serializer, views and callers are); per the
spec's data model it is `{id, owner_user_id, name}`, exactly the shape of
`Tag`. -/
structure Ingredient where
  id : Nat
  user : Nat
  name : String
deriving Repr, DecidableEq

/-- A `Recipe` row.  `tag` and `ingredients` are the many-to-many
association sets, kept as the lists of associated `Tag` / `Ingredient`
primary keys (the `ingredients` field itself is modelled from the spec,
like `Ingredient`).  `price` is the fixed-point decimal in hundredths. -/
structure Recipe where
  id : Nat
  user : Nat
  slug : String := ""
  title : String := ""
  description : String := ""
  make_time_minutes : Int := 0
  price : Int := 0
  link : String := ""
  tag : List Nat := []
  ingredients : List Nat := []
deriving Repr, DecidableEq

/-- The resource tables and their auto-increment counters. -/
structure Store where
  recipes : List Recipe := []
  tags : List Tag := []
  ingredients : List Ingredient := []
  nextRecipeId : Nat := 1
  nextTagId : Nat := 1
  nextIngredientId : Nat := 1
deriving Repr, DecidableEq

/-! ## Queryset pipeline helpers

`order_by` is an insertion sort with a boolean "goes before" relation;
`.distinct()` is `List.dedup` (first occurrence kept, which preserves the
order produced by `order_by`). -/

/-- Insert `a` into `l` before the first element `b` with `le a b`. -/
def insertBy (le : α → α → Bool) (a : α) : List α → List α
  | [] => [a]
  | b :: l => if le a b then a :: b :: l else b :: insertBy le a l

/-- Insertion sort by the boolean "goes before" relation `le`. -/
def sortBy (le : α → α → Bool) : List α → List α
  | [] => []
  | a :: l => insertBy le a (sortBy le l)


/-! ## `RecipeModelViewSet.get_queryset` (core, after query-param parsing)

`queryset.filter(tag__id__in=tag_ids)` on a many-to-many relation is a
SQL join: one output row per matching attached tag — hence the trailing
`.distinct()` in the source.  The joins run on the unscoped base
queryset, then `.filter(user=...)`, then `.order_by('-id')`, then
`.distinct()`. -/

/-- `filter(tag__id__in=ids)`: keep one copy of `r` per attached tag whose
id is in `ids`. -/
def joinFilterTag (rs : List Recipe) (ids : List Int) : List Recipe :=
  rs.flatMap fun r => ((r.tag.filter (fun t => ids.contains (Int.ofNat t))).map fun _ => r)

/-- `filter(ingredients__id__in=ids)` (join on the ingredient m2m). -/
def joinFilterIngredient (rs : List Recipe) (ids : List Int) : List Recipe :=
  rs.flatMap fun r =>
    ((r.ingredients.filter (fun i => ids.contains (Int.ofNat i))).map fun _ => r)

/-- `order_by('-id')`: descending primary key. -/
def orderByIdDesc : List Recipe → List Recipe :=
  sortBy (fun a b => decide (b.id ≤ a.id))

/-- The body of `RecipeModelViewSet.get_queryset` once the query
parameters have been parsed: optional tag/ingredient joins, then the
owner scoping `filter(user=request.user)`, then `order_by('-id')` and
`.distinct()`. -/
def listRecipes (s : Store) (u : Nat)
    (tagIds ingredientIds : Option (List Int)) : List Recipe :=
  let qs := s.recipes
  let qs := match tagIds with
    | some ids => joinFilterTag qs ids
    | none => qs
  let qs := match ingredientIds with
    | some ids => joinFilterIngredient qs ids
    | none => qs
  (orderByIdDesc (qs.filter (fun r => r.user == u))).dedup

/-! ## `BaseRecipeAttrGenericViewSet.get_queryset` (core)

`filter(recipe__isnull=False)` joins a tag/ingredient against every
recipe it is attached to — again one row per attached recipe, collapsed
by `.distinct()`; the recipe's owner is *not* consulted. -/

/-- `Tag.objects.filter(recipe__isnull=False)` as a join. -/
def tagRecipeJoin (ts : List Tag) (rs : List Recipe) : List Tag :=
  ts.flatMap fun t => ((rs.filter (fun r => r.tag.contains t.id)).map fun _ => t)

/-- `Ingredient.objects.filter(recipe__isnull=False)` as a join. -/
def ingredientRecipeJoin (ts : List Ingredient) (rs : List Recipe) : List Ingredient :=
  ts.flatMap fun t =>
    ((rs.filter (fun r => r.ingredients.contains t.id)).map fun _ => t)

/-- Tag listing: optional assigned-only join, owner scoping,
`order_by('-name')`, `.distinct()`. -/
def listTags (s : Store) (u : Nat) (assignedOnly : Bool) : List Tag :=
  let qs := s.tags
  let qs := if assignedOnly then tagRecipeJoin qs s.recipes else qs
  (sortBy (fun a b : Tag => !decide (a.name < b.name))
    (qs.filter (fun t => t.user == u))).dedup

/-- Ingredient listing, identical pipeline. -/
def listIngredients (s : Store) (u : Nat) (assignedOnly : Bool) : List Ingredient :=
  let qs := s.ingredients
  let qs := if assignedOnly then ingredientRecipeJoin qs s.recipes else qs
  (sortBy (fun a b : Ingredient => !decide (a.name < b.name))
    (qs.filter (fun t => t.user == u))).dedup


/-! ## Query-parameter parsing (`_params_to_int`, `assigned_only`)

Python's `int(str)` on the ASCII strings that reach these views: strip
whitespace, optional single sign, then a non-empty digit run in which
single underscores may appear between digits.  Anything else raises
`ValueError`. -/

/-- Digits-and-underscores tail: an underscore must be followed by a
digit, and every other character must be a digit. -/
def pyIntDigitsTail : List Char → Nat → Option Nat
  | [], acc => some acc
  | '_' :: c :: cs, acc =>
      if c.isDigit then pyIntDigitsTail cs (acc * 10 + (c.toNat - '0'.toNat))
      else none
  | ['_'], _ => none
  | c :: cs, acc =>
      if c.isDigit then pyIntDigitsTail cs (acc * 10 + (c.toNat - '0'.toNat))
      else none

/-- A non-empty unsigned digit run (no leading underscore). -/
def pyIntUnsigned : List Char → Option Nat
  | [] => none
  | c :: cs =>
      if c.isDigit then pyIntDigitsTail cs (c.toNat - '0'.toNat)
      else none

/-- Python `int(s)` for ASCII input: `some n` on success, `none` when a
`ValueError` would be raised. -/
def pyInt (s : String) : Option Int :=
  match stripChars s.toList with
  | '+' :: cs => (pyIntUnsigned cs).map Int.ofNat
  | '-' :: cs => (pyIntUnsigned cs).map (fun n => -(n : Int))
  | cs => (pyIntUnsigned cs).map Int.ofNat

/-- `str.split(',')`: split at every comma, keeping empty segments. -/
def splitCommaAux : List Char → List Char → List String
  | [], acc => [String.mk acc.reverse]
  | c :: cs, acc =>
      if c = ',' then String.mk acc.reverse :: splitCommaAux cs []
      else splitCommaAux cs (c :: acc)

/-- Errors surfaced by the view layer.  `valueError` is an *unhandled*
Python `ValueError` escaping `get_queryset` (a 500, not a field-keyed
validation failure); `notFound` and `forbidden` are the 404/403 API
errors. -/
inductive ApiError where
  | valueError
  | notFound
  | forbidden
deriving Repr, DecidableEq

/-- `RecipeModelViewSet._params_to_int`:
`[int(str_id) for str_id in params.split(',')]`; the first non-numeric
segment raises. -/
def params_to_int (params : String) : Except ApiError (List Int) :=
  (splitCommaAux params.toList []).mapM fun seg =>
    match pyInt seg with
    | some n => Except.ok n
    | none => Except.error ApiError.valueError

/-- One query parameter: `none` when absent from the URL. -/
def parseListParam (p : Option String) : Except ApiError (Option (List Int)) :=
  match p with
  | none => Except.ok none
  | some str =>
      if str = "" then Except.ok none
      else (params_to_int str).map some

/-- `RecipeModelViewSet.get_queryset` including the `tags` /
`ingredients` query-parameter handling (`if tags:` treats a missing or
empty string as "no filter"; a parse failure propagates as the unhandled
`ValueError`). -/
def recipeGetQueryset (s : Store) (u : Nat)
    (tagsParam ingredientsParam : Option String) :
    Except ApiError (List Recipe) := do
  let tagIds ← parseListParam tagsParam
  let ingredientIds ← parseListParam ingredientsParam
  Except.ok (listRecipes s u tagIds ingredientIds)

/-- `bool(int(query_params.get('assigned_only', 0)))`: the default `0`
yields `false`; a present value is parsed by `int()` (so a non-numeric or
empty value raises) and compared with zero. -/
def parseAssignedOnly (p : Option String) : Except ApiError Bool :=
  match p with
  | none => Except.ok false
  | some str =>
      match pyInt str with
      | some n => Except.ok (n ≠ 0)
      | none => Except.error ApiError.valueError

/-- `BaseRecipeAttrGenericViewSet.get_queryset` for the tag view. -/
def tagGetQueryset (s : Store) (u : Nat) (assignedOnlyParam : Option String) :
    Except ApiError (List Tag) := do
  let b ← parseAssignedOnly assignedOnlyParam
  Except.ok (listTags s u b)

/-- `BaseRecipeAttrGenericViewSet.get_queryset` for the ingredient view. -/
def ingredientGetQueryset (s : Store) (u : Nat)
    (assignedOnlyParam : Option String) : Except ApiError (List Ingredient) := do
  let b ← parseAssignedOnly assignedOnlyParam
  Except.ok (listIngredients s u b)

/-! ## Detail routes (DRF `get_object` over the scoped queryset) -/

/-- DRF's `get_object` for the recipe detail routes: look the pk up in
`get_queryset()` (owner-scoped, no query-param filters on a detail
request); an empty lookup raises `Http404`. -/
def get_object (s : Store) (u : Nat) (rid : Nat) : Option Recipe :=
  (listRecipes s u none none).find? (fun r => r.id == rid)

/-- `RetrieveModelMixin.retrieve`. -/
def retrieveRecipe (s : Store) (u : Nat) (rid : Nat) : Except ApiError Recipe :=
  match get_object s u rid with
  | some r => Except.ok r
  | none => Except.error ApiError.notFound

/-- `DestroyModelMixin.destroy`: `get_object` (404 before any write),
then delete the row by primary key. -/
def destroyRecipe (s : Store) (u : Nat) (rid : Nat) :
    Store × Except ApiError Unit :=
  match get_object s u rid with
  | some r =>
      ({ s with recipes := s.recipes.filter (fun x => x.id != r.id) },
        Except.ok ())
  | none => (s, Except.error ApiError.notFound)

/-! ## Nested-resource reconciler (`core/recipe/serializers.py`) -/

/-- Database-level failure of `QuerySet.get_or_create`: `get()` raises
when more than one row matches the lookup (there is no unique constraint
on `(user, name)`). -/
inductive DbError where
  | multipleObjectsReturned
deriving Repr, DecidableEq

/-- `Tag.objects.get_or_create(user=u, name=name)`: return the matching
row, or create one with the next primary key.  Result: updated table,
updated pk counter, id of the resulting row. -/
def get_or_create_tag (ts : List Tag) (next : Nat) (u : Nat) (name : String) :
    Except DbError (List Tag × Nat × Nat) :=
  match ts.filter (fun t => t.user == u && t.name == name) with
  | [] => Except.ok (ts ++ [⟨next, u, name⟩], next + 1, next)
  | [t] => Except.ok (ts, next, t.id)
  | _ => Except.error DbError.multipleObjectsReturned

/-- `Ingredient.objects.get_or_create(user=u, name=name)` (the
`Ingredient` manager is spec-modelled, identical to `Tag`). -/
def get_or_create_ingredient (ts : List Ingredient) (next : Nat) (u : Nat)
    (name : String) : Except DbError (List Ingredient × Nat × Nat) :=
  match ts.filter (fun t => t.user == u && t.name == name) with
  | [] => Except.ok (ts ++ [⟨next, u, name⟩], next + 1, next)
  | [t] => Except.ok (ts, next, t.id)
  | _ => Except.error DbError.multipleObjectsReturned

/-- Many-to-many `add`: a no-op when the association already exists. -/
def m2mAdd (l : List Nat) (i : Nat) : List Nat :=
  if l.contains i then l else l ++ [i]

/-- `RecipeModelSerializer._get_or_create_tags`: for each payload name,
get-or-create the tag scoped to the authenticated user and `add` it to
the recipe's tag set `attached`. -/
def get_or_create_tags (u : Nat) (names : List String) (ts : List Tag)
    (next : Nat) (attached : List Nat) :
    Except DbError (List Tag × Nat × List Nat) :=
  match names with
  | [] => Except.ok (ts, next, attached)
  | n :: rest => do
      let (ts2, next2, tid) ← get_or_create_tag ts next u n
      get_or_create_tags u rest ts2 next2 (m2mAdd attached tid)

/-- `RecipeModelSerializer._get_or_create_ingredients`. -/
def get_or_create_ingredients (u : Nat) (names : List String)
    (ts : List Ingredient) (next : Nat) (attached : List Nat) :
    Except DbError (List Ingredient × Nat × List Nat) :=
  match names with
  | [] => Except.ok (ts, next, attached)
  | n :: rest => do
      let (ts2, next2, tid) ← get_or_create_ingredient ts next u n
      get_or_create_ingredients u rest ts2 next2 (m2mAdd attached tid)

/-- Validated scalar fields of a create payload. -/
structure RecipeFields where
  slug : String := ""
  title : String := ""
  description : String := ""
  make_time_minutes : Int := 0
  price : Int := 0
  link : String := ""
deriving Repr, DecidableEq

/-- `RecipeModelSerializer.create` (with `perform_create` supplying
`user=request.user`): persist the recipe row, then reconcile tags, then
ingredients.  Intermediate states are threaded; an error aborts with no
resulting state (see `createRecipe` for the request-level boundary). -/
def serializer_create (s : Store) (u : Nat) (fields : RecipeFields)
    (tagNames ingredientNames : List String) :
    Except DbError (Store × Recipe) := do
  let r0 : Recipe :=
    { id := s.nextRecipeId, user := u, slug := fields.slug
      title := fields.title, description := fields.description
      make_time_minutes := fields.make_time_minutes, price := fields.price
      link := fields.link, tag := [], ingredients := [] }
  let (ts, nextT, rtags) ← get_or_create_tags u tagNames s.tags s.nextTagId []
  let (ings, nextI, rings) ←
    get_or_create_ingredients u ingredientNames s.ingredients s.nextIngredientId []
  let r := { r0 with tag := rtags, ingredients := rings }
  let s2 : Store :=
    { s with
        recipes := s.recipes ++ [r]
        nextRecipeId := s.nextRecipeId + 1
        tags := ts
        nextTagId := nextT
        ingredients := ings
        nextIngredientId := nextI }
  Except.ok (s2, r)

/-- A validated update payload.  Every field is tri-state at the HTTP
boundary; `tag`/`ingredients` are the association fields the serializer
pops with default `None`. -/
structure RecipePatch where
  slug : Option String := none
  title : Option String := none
  description : Option String := none
  make_time_minutes : Option Int := none
  price : Option Int := none
  link : Option String := none
  tag : Option (List String) := none
  ingredients : Option (List String) := none
deriving Repr, DecidableEq

/-- The `setattr` loop over the remaining scalar fields. -/
def applyScalars (r : Recipe) (p : RecipePatch) : Recipe :=
  { r with
      slug := p.slug.getD r.slug
      title := p.title.getD r.title
      description := p.description.getD r.description
      make_time_minutes := p.make_time_minutes.getD r.make_time_minutes
      price := p.price.getD r.price
      link := p.link.getD r.link }

/-- `if tags is not None: instance.tag.clear(); self._get_or_create_tags(...)`. -/
def updateTagsStep (s : Store) (u : Nat) (r : Recipe)
    (tagField : Option (List String)) : Except DbError (Store × Recipe) :=
  match tagField with
  | none => Except.ok (s, r)
  | some names => do
      let (ts, nextT, rtags) ← get_or_create_tags u names s.tags s.nextTagId []
      Except.ok ({ s with tags := ts, nextTagId := nextT }, { r with tag := rtags })

/-- `if ingredients is not None: instance.ingredients.clear(); ...`. -/
def updateIngredientsStep (s : Store) (u : Nat) (r : Recipe)
    (ingredientField : Option (List String)) : Except DbError (Store × Recipe) :=
  match ingredientField with
  | none => Except.ok (s, r)
  | some names => do
      let (ings, nextI, rings) ←
        get_or_create_ingredients u names s.ingredients s.nextIngredientId []
      Except.ok ({ s with ingredients := ings, nextIngredientId := nextI },
        { r with ingredients := rings })

/-- `instance.save()`: write the row back by primary key. -/
def saveRecipe (s : Store) (r : Recipe) : Store :=
  { s with recipes := s.recipes.map (fun x => if x.id == r.id then r else x) }

/-- `RecipeModelSerializer.update`: pop `tag` and `ingredients` (default
`None`), reconcile each kind when present, apply the scalar `setattr`
loop, save. -/
def serializer_update (s : Store) (u : Nat) (inst : Recipe)
    (p : RecipePatch) : Except DbError (Store × Recipe) := do
  let (s1, r1) ← updateTagsStep s u inst p.tag
  let (s2, r2) ← updateIngredientsStep s1 u r1 p.ingredients
  let r3 := applyScalars r2 p
  Except.ok (saveRecipe s2 r3, r3)

/-- Request-level recipe creation.  Modelled from the spec: each write
request executes as a single atomic transaction (the transaction
configuration lives outside the given source tree), so a failure leaves
the prior state intact. -/
def createRecipe (s : Store) (u : Nat) (fields : RecipeFields)
    (tagNames ingredientNames : List String) : Store × Except ApiError Recipe :=
  match serializer_create s u fields tagNames ingredientNames with
  | Except.ok (s2, r) => (s2, Except.ok r)
  | Except.error _ => (s, Except.error ApiError.valueError)

/-- Request-level recipe update: `get_object` over the owner-scoped
queryset (404 before any write), then the serializer update inside the
spec-modelled atomic transaction boundary (see `createRecipe`). -/
def updateRecipe (s : Store) (u : Nat) (rid : Nat) (p : RecipePatch) :
    Store × Except ApiError Recipe :=
  match get_object s u rid with
  | none => (s, Except.error ApiError.notFound)
  | some inst =>
      match serializer_update s u inst p with
      | Except.ok (s2, r2) => (s2, Except.ok r2)
      | Except.error _ => (s, Except.error ApiError.valueError)

/-- A store in which user 1's tag is attached only to user 2's recipe. -/
def crossOwnerStore : Store :=
  { tags := [⟨1, 1, "t"⟩], recipes := [{ id := 1, user := 2, tag := [1] }] }

/-- Concrete store for exercising the tri-state update semantics. -/
def c3Store : Store :=
  { recipes := [{ id := 1, user := 1, tag := [5], ingredients := [9] }]
    tags := [⟨5, 1, "old"⟩]
    ingredients := [⟨9, 1, "i"⟩]
    nextRecipeId := 2
    nextTagId := 6
    nextIngredientId := 10 }

/-- The recipe instance updated in `c3Store`. -/
def c3Inst : Recipe := { id := 1, user := 1, tag := [5], ingredients := [9] }

/-- Update payload: replace the tag set by `["new"]`, clear ingredients. -/
def c3Patch : RecipePatch := { tag := some ["new"], ingredients := some [] }

/-- The store produced by updating `c3Inst` with `c3Patch`. -/
def c3Store2 : Store :=
  { recipes := [{ id := 1, user := 1, tag := [6], ingredients := [] }]
    tags := [⟨5, 1, "old"⟩, ⟨6, 1, "new"⟩]
    ingredients := [⟨9, 1, "i"⟩]
    nextRecipeId := 2
    nextTagId := 7
    nextIngredientId := 10 }

/-- The recipe produced by updating `c3Inst` with `c3Patch`. -/
def c3R2 : Recipe := { id := 1, user := 1, tag := [6], ingredients := [] }

/-! ## Pipeline lemmas -/

theorem mem_insertBy {le : α → α → Bool} {a x : α} {l : List α} :
    x ∈ insertBy le a l ↔ x = a ∨ x ∈ l := by
  induction l with
  | nil => simp [insertBy]
  | cons b l ih =>
      simp only [insertBy]
      split
      · simp
      · simp only [List.mem_cons, ih]
        tauto

theorem mem_sortBy {le : α → α → Bool} {x : α} {l : List α} :
    x ∈ sortBy le l ↔ x ∈ l := by
  induction l with
  | nil => simp [sortBy]
  | cons a l ih => simp [sortBy, mem_insertBy, ih]

theorem pairwise_insertBy {le : α → α → Bool}
    (htot : ∀ a b, le a b = false → le b a = true)
    (htrans : ∀ a b c, le a b = true → le b c = true → le a c = true)
    {a : α} {l : List α} (h : l.Pairwise (fun x y => le x y = true)) :
    (insertBy le a l).Pairwise (fun x y => le x y = true) := by
  induction l with
  | nil => simp [insertBy]
  | cons b l ih =>
      rcases List.pairwise_cons.mp h with ⟨hb, hl⟩
      simp only [insertBy]
      split
      · rename_i hab
        refine List.pairwise_cons.mpr ⟨?_, h⟩
        intro x hx
        rcases List.mem_cons.mp hx with rfl | hx
        · exact hab
        · exact htrans a b x hab (hb x hx)
      · rename_i hab
        refine List.pairwise_cons.mpr ⟨?_, ih hl⟩
        intro x hx
        rcases mem_insertBy.mp hx with rfl | hx
        · exact htot x b (Bool.eq_false_iff.mpr hab)
        · exact hb x hx

theorem pairwise_sortBy {le : α → α → Bool}
    (htot : ∀ a b, le a b = false → le b a = true)
    (htrans : ∀ a b c, le a b = true → le b c = true → le a c = true)
    (l : List α) :
    (sortBy le l).Pairwise (fun x y => le x y = true) := by
  induction l with
  | nil => simp [sortBy]
  | cons a l ih => exact pairwise_insertBy htot htrans ih

/-! ### Membership characterisations of the pipelines -/

theorem mem_joinFilterTag {rs : List Recipe} {ids : List Int} {r : Recipe} :
    r ∈ joinFilterTag rs ids ↔
      r ∈ rs ∧ ∃ t ∈ r.tag, Int.ofNat t ∈ ids := by
  simp only [joinFilterTag, List.mem_flatMap, List.mem_map, List.mem_filter]
  constructor
  · rintro ⟨r2, hr2, t, ⟨ht, hin⟩, rfl⟩
    exact ⟨hr2, t, ht, by simpa using hin⟩
  · rintro ⟨hr, t, ht, hin⟩
    exact ⟨r, hr, t, ⟨ht, by simpa using hin⟩, rfl⟩

theorem mem_joinFilterIngredient {rs : List Recipe} {ids : List Int} {r : Recipe} :
    r ∈ joinFilterIngredient rs ids ↔
      r ∈ rs ∧ ∃ t ∈ r.ingredients, Int.ofNat t ∈ ids := by
  simp only [joinFilterIngredient, List.mem_flatMap, List.mem_map, List.mem_filter]
  constructor
  · rintro ⟨r2, hr2, t, ⟨ht, hin⟩, rfl⟩
    exact ⟨hr2, t, ht, by simpa using hin⟩
  · rintro ⟨hr, t, ht, hin⟩
    exact ⟨r, hr, t, ⟨ht, by simpa using hin⟩, rfl⟩

theorem mem_listRecipes {s : Store} {u : Nat}
    {tagIds ingredientIds : Option (List Int)} {r : Recipe} :
    r ∈ listRecipes s u tagIds ingredientIds ↔
      r ∈ s.recipes ∧ r.user = u ∧
      (∀ ids, tagIds = some ids → ∃ t ∈ r.tag, Int.ofNat t ∈ ids) ∧
      (∀ ids, ingredientIds = some ids → ∃ t ∈ r.ingredients, Int.ofNat t ∈ ids) := by
  simp only [listRecipes, List.mem_dedup, orderByIdDesc, mem_sortBy, List.mem_filter,
    beq_iff_eq]
  cases tagIds <;> cases ingredientIds <;>
    simp [mem_joinFilterTag, mem_joinFilterIngredient] <;> tauto

theorem mem_tagRecipeJoin {ts : List Tag} {rs : List Recipe} {t : Tag} :
    t ∈ tagRecipeJoin ts rs ↔ t ∈ ts ∧ ∃ r ∈ rs, t.id ∈ r.tag := by
  simp only [tagRecipeJoin, List.mem_flatMap, List.mem_map, List.mem_filter]
  constructor
  · rintro ⟨t2, ht2, r, ⟨hr, hin⟩, rfl⟩
    exact ⟨ht2, r, hr, by simpa using hin⟩
  · rintro ⟨ht, r, hr, hin⟩
    exact ⟨t, ht, r, ⟨hr, by simpa using hin⟩, rfl⟩

theorem mem_ingredientRecipeJoin {ts : List Ingredient} {rs : List Recipe}
    {t : Ingredient} :
    t ∈ ingredientRecipeJoin ts rs ↔ t ∈ ts ∧ ∃ r ∈ rs, t.id ∈ r.ingredients := by
  simp only [ingredientRecipeJoin, List.mem_flatMap, List.mem_map, List.mem_filter]
  constructor
  · rintro ⟨t2, ht2, r, ⟨hr, hin⟩, rfl⟩
    exact ⟨ht2, r, hr, by simpa using hin⟩
  · rintro ⟨ht, r, hr, hin⟩
    exact ⟨t, ht, r, ⟨hr, by simpa using hin⟩, rfl⟩

theorem mem_listTags {s : Store} {u : Nat} {b : Bool} {t : Tag} :
    t ∈ listTags s u b ↔
      t ∈ s.tags ∧ t.user = u ∧ (b = true → ∃ r ∈ s.recipes, t.id ∈ r.tag) := by
  simp only [listTags, List.mem_dedup, mem_sortBy, List.mem_filter, beq_iff_eq]
  cases b <;> simp [mem_tagRecipeJoin] <;> tauto

theorem mem_listIngredients {s : Store} {u : Nat} {b : Bool} {t : Ingredient} :
    t ∈ listIngredients s u b ↔
      t ∈ s.ingredients ∧ t.user = u ∧
        (b = true → ∃ r ∈ s.recipes, t.id ∈ r.ingredients) := by
  simp only [listIngredients, List.mem_dedup, mem_sortBy, List.mem_filter, beq_iff_eq]
  cases b <;> simp [mem_ingredientRecipeJoin] <;> tauto

/-! ### Reconciler lemmas -/

theorem mem_m2mAdd {l : List Nat} {i j : Nat} :
    i ∈ m2mAdd l j ↔ i ∈ l ∨ i = j := by
  simp only [m2mAdd]
  split
  · rename_i h
    have hj : j ∈ l := by simpa using h
    constructor
    · exact Or.inl
    · rintro (h1 | rfl)
      · exact h1
      · exact hj
  · simp [List.mem_append]

theorem tag_match_mem_filter {ts : List Tag} {u : Nat} {name : String} {t : Tag}
    (ht : t ∈ ts) (hu : t.user = u) (hn : t.name = name) :
    t ∈ ts.filter (fun x => x.user == u && x.name == name) := by
  simp [List.mem_filter, ht, hu, hn]

theorem ingredient_match_mem_filter {ts : List Ingredient} {u : Nat}
    {name : String} {t : Ingredient}
    (ht : t ∈ ts) (hu : t.user = u) (hn : t.name = name) :
    t ∈ ts.filter (fun x => x.user == u && x.name == name) := by
  simp [List.mem_filter, ht, hu, hn]

/-- Full behavioural specification of `_get_or_create_tags`, by one
induction over the payload names: (1) existing rows persist; (2) any row
of the final table is an old row or a row created for one of the names,
owned by the authenticated user; (3) already-attached ids stay attached;
(4) every attached id is an old one or the id of a final-table row for
one of the names; (5) every name ends up attached through some matching
row; (6) any final-table row of the user whose name is among the payload
names is attached. -/
theorem gocTags_spec {u : Nat} {names : List String} {ts ts2 : List Tag}
    {next next2 : Nat} {acc acc2 : List Nat}
    (hok : get_or_create_tags u names ts next acc = Except.ok (ts2, next2, acc2)) :
    (∀ t ∈ ts, t ∈ ts2) ∧
    (∀ t ∈ ts2, t ∈ ts ∨ (t.user = u ∧ t.name ∈ names)) ∧
    (∀ i ∈ acc, i ∈ acc2) ∧
    (∀ i ∈ acc2, i ∈ acc ∨ ∃ t ∈ ts2, t.id = i ∧ t.user = u ∧ t.name ∈ names) ∧
    (∀ n ∈ names, ∃ t ∈ ts2, t.user = u ∧ t.name = n ∧ t.id ∈ acc2) ∧
    (∀ t ∈ ts2, t.user = u → t.name ∈ names → t.id ∈ acc2) := by
  induction names generalizing ts next acc with
  | nil =>
      simp only [get_or_create_tags, Except.ok.injEq, Prod.mk.injEq] at hok
      obtain ⟨rfl, rfl, rfl⟩ := hok
      refine ⟨fun t ht => ht, fun t ht => Or.inl ht, fun i hi => hi,
        fun i hi => Or.inl hi, by simp, by simp⟩
  | cons n rest ih =>
      simp only [get_or_create_tags] at hok
      cases hstep : get_or_create_tag ts next u n with
      | error e =>
          rw [hstep] at hok
          exact Except.noConfusion hok
      | ok res =>
          obtain ⟨ts1, next1, tid⟩ := res
          rw [hstep] at hok
          replace hok : get_or_create_tags u rest ts1 next1 (m2mAdd acc tid) =
              Except.ok (ts2, next2, acc2) := hok
          obtain ⟨ih1, ih2, ih3, ih4, ih5, ih6⟩ := ih hok
          have hacc2 : tid ∈ acc2 := ih3 tid (mem_m2mAdd.mpr (Or.inr rfl))
          cases hf : ts.filter (fun x => x.user == u && x.name == n) with
          | nil =>
              simp only [get_or_create_tag, hf, Except.ok.injEq, Prod.mk.injEq] at hstep
              obtain ⟨h1, h2, h3⟩ := hstep
              subst h1; subst h2; subst h3
              have hnew : (⟨next, u, n⟩ : Tag) ∈ ts2 :=
                ih1 _ (List.mem_append.mpr (Or.inr (List.mem_singleton.mpr rfl)))
              refine ⟨?_, ?_, ?_, ?_, ?_, ?_⟩
              · intro t ht
                exact ih1 t (List.mem_append.mpr (Or.inl ht))
              · intro t ht
                rcases ih2 t ht with hold | hnamed
                · rcases List.mem_append.mp hold with hts | hsing
                  · exact Or.inl hts
                  · rw [List.mem_singleton.mp hsing]
                    exact Or.inr ⟨rfl, List.mem_cons_self n rest⟩
                · exact Or.inr ⟨hnamed.1, List.mem_cons_of_mem n hnamed.2⟩
              · intro i hi
                exact ih3 i (mem_m2mAdd.mpr (Or.inl hi))
              · intro i hi
                rcases ih4 i hi with hm | ⟨t, ht, hti, htu, htn⟩
                · rcases mem_m2mAdd.mp hm with hia | rfl
                  · exact Or.inl hia
                  · exact Or.inr ⟨⟨i, u, n⟩, hnew, rfl, rfl, List.mem_cons_self n rest⟩
                · exact Or.inr ⟨t, ht, hti, htu, List.mem_cons_of_mem n htn⟩
              · intro m hm
                rcases List.mem_cons.mp hm with rfl | hmrest
                · exact ⟨⟨next, u, m⟩, hnew, rfl, rfl, hacc2⟩
                · obtain ⟨t, ht, h1, h2, h3⟩ := ih5 m hmrest
                  exact ⟨t, ht, h1, h2, h3⟩
              · intro t ht htu htn
                by_cases hrest : t.name ∈ rest
                · exact ih6 t ht htu hrest
                · have htn2 : t.name = n := by
                    rcases List.mem_cons.mp htn with h | h
                    · exact h
                    · exact absurd h hrest
                  rcases ih2 t ht with hold | hnamed
                  · rcases List.mem_append.mp hold with hts | hsing
                    · exact absurd (by
                        have := tag_match_mem_filter hts htu htn2
                        rwa [hf] at this) (List.not_mem_nil t)
                    · rw [List.mem_singleton.mp hsing]
                      exact hacc2
                  · exact absurd hnamed.2 hrest
          | cons tx more =>
              cases more with
              | nil =>
                  simp only [get_or_create_tag, hf, Except.ok.injEq,
                    Prod.mk.injEq] at hstep
                  obtain ⟨h1, h2, h3⟩ := hstep
                  subst h1; subst h2; subst h3
                  have htxf : tx ∈ ts.filter (fun x => x.user == u && x.name == n) := by
                    rw [hf]; exact List.mem_singleton.mpr rfl
                  have htx := List.mem_filter.mp htxf
                  have htxu : tx.user = u := by
                    have := htx.2
                    simp only [Bool.and_eq_true, beq_iff_eq] at this
                    exact this.1
                  have htxn : tx.name = n := by
                    have := htx.2
                    simp only [Bool.and_eq_true, beq_iff_eq] at this
                    exact this.2
                  refine ⟨ih1, ?_, ?_, ?_, ?_, ?_⟩
                  · intro t ht
                    rcases ih2 t ht with hold | hnamed
                    · exact Or.inl hold
                    · exact Or.inr ⟨hnamed.1, List.mem_cons_of_mem n hnamed.2⟩
                  · intro i hi
                    exact ih3 i (mem_m2mAdd.mpr (Or.inl hi))
                  · intro i hi
                    rcases ih4 i hi with hm | ⟨t, ht, hti, htu2, htn2⟩
                    · rcases mem_m2mAdd.mp hm with hia | rfl
                      · exact Or.inl hia
                      · exact Or.inr ⟨tx, ih1 tx htx.1, rfl, htxu,
                          htxn ▸ List.mem_cons_self n rest⟩
                    · exact Or.inr ⟨t, ht, hti, htu2, List.mem_cons_of_mem n htn2⟩
                  · intro m hm
                    rcases List.mem_cons.mp hm with rfl | hmrest
                    · exact ⟨tx, ih1 tx htx.1, htxu, htxn, hacc2⟩
                    · exact ih5 m hmrest
                  · intro t ht htu htn
                    by_cases hrest : t.name ∈ rest
                    · exact ih6 t ht htu hrest
                    · have htn2 : t.name = n := by
                        rcases List.mem_cons.mp htn with h | h
                        · exact h
                        · exact absurd h hrest
                      rcases ih2 t ht with hold | hnamed
                      · have : t ∈ ts.filter (fun x => x.user == u && x.name == n) :=
                          tag_match_mem_filter hold htu htn2
                        rw [hf] at this
                        rw [List.mem_singleton.mp this]
                        exact hacc2
                      · exact absurd hnamed.2 hrest
              | cons ty more2 =>
                  simp only [get_or_create_tag, hf] at hstep
                  exact Except.noConfusion hstep

/-- Full behavioural specification of `_get_or_create_ingredients`, by one
induction over the payload names: (1) existing rows persist; (2) any row
of the final table is an old row or a row created for one of the names,
owned by the authenticated user; (3) already-attached ids stay attached;
(4) every attached id is an old one or the id of a final-table row for
one of the names; (5) every name ends up attached through some matching
row; (6) any final-table row of the user whose name is among the payload
names is attached. -/
theorem gocIngredients_spec {u : Nat} {names : List String} {ts ts2 : List Ingredient}
    {next next2 : Nat} {acc acc2 : List Nat}
    (hok : get_or_create_ingredients u names ts next acc = Except.ok (ts2, next2, acc2)) :
    (∀ t ∈ ts, t ∈ ts2) ∧
    (∀ t ∈ ts2, t ∈ ts ∨ (t.user = u ∧ t.name ∈ names)) ∧
    (∀ i ∈ acc, i ∈ acc2) ∧
    (∀ i ∈ acc2, i ∈ acc ∨ ∃ t ∈ ts2, t.id = i ∧ t.user = u ∧ t.name ∈ names) ∧
    (∀ n ∈ names, ∃ t ∈ ts2, t.user = u ∧ t.name = n ∧ t.id ∈ acc2) ∧
    (∀ t ∈ ts2, t.user = u → t.name ∈ names → t.id ∈ acc2) := by
  induction names generalizing ts next acc with
  | nil =>
      simp only [get_or_create_ingredients, Except.ok.injEq, Prod.mk.injEq] at hok
      obtain ⟨rfl, rfl, rfl⟩ := hok
      refine ⟨fun t ht => ht, fun t ht => Or.inl ht, fun i hi => hi,
        fun i hi => Or.inl hi, by simp, by simp⟩
  | cons n rest ih =>
      simp only [get_or_create_ingredients] at hok
      cases hstep : get_or_create_ingredient ts next u n with
      | error e =>
          rw [hstep] at hok
          exact Except.noConfusion hok
      | ok res =>
          obtain ⟨ts1, next1, tid⟩ := res
          rw [hstep] at hok
          replace hok : get_or_create_ingredients u rest ts1 next1 (m2mAdd acc tid) =
              Except.ok (ts2, next2, acc2) := hok
          obtain ⟨ih1, ih2, ih3, ih4, ih5, ih6⟩ := ih hok
          have hacc2 : tid ∈ acc2 := ih3 tid (mem_m2mAdd.mpr (Or.inr rfl))
          cases hf : ts.filter (fun x => x.user == u && x.name == n) with
          | nil =>
              simp only [get_or_create_ingredient, hf, Except.ok.injEq, Prod.mk.injEq] at hstep
              obtain ⟨h1, h2, h3⟩ := hstep
              subst h1; subst h2; subst h3
              have hnew : (⟨next, u, n⟩ : Ingredient) ∈ ts2 :=
                ih1 _ (List.mem_append.mpr (Or.inr (List.mem_singleton.mpr rfl)))
              refine ⟨?_, ?_, ?_, ?_, ?_, ?_⟩
              · intro t ht
                exact ih1 t (List.mem_append.mpr (Or.inl ht))
              · intro t ht
                rcases ih2 t ht with hold | hnamed
                · rcases List.mem_append.mp hold with hts | hsing
                  · exact Or.inl hts
                  · rw [List.mem_singleton.mp hsing]
                    exact Or.inr ⟨rfl, List.mem_cons_self n rest⟩
                · exact Or.inr ⟨hnamed.1, List.mem_cons_of_mem n hnamed.2⟩
              · intro i hi
                exact ih3 i (mem_m2mAdd.mpr (Or.inl hi))
              · intro i hi
                rcases ih4 i hi with hm | ⟨t, ht, hti, htu, htn⟩
                · rcases mem_m2mAdd.mp hm with hia | rfl
                  · exact Or.inl hia
                  · exact Or.inr ⟨⟨i, u, n⟩, hnew, rfl, rfl, List.mem_cons_self n rest⟩
                · exact Or.inr ⟨t, ht, hti, htu, List.mem_cons_of_mem n htn⟩
              · intro m hm
                rcases List.mem_cons.mp hm with rfl | hmrest
                · exact ⟨⟨next, u, m⟩, hnew, rfl, rfl, hacc2⟩
                · obtain ⟨t, ht, h1, h2, h3⟩ := ih5 m hmrest
                  exact ⟨t, ht, h1, h2, h3⟩
              · intro t ht htu htn
                by_cases hrest : t.name ∈ rest
                · exact ih6 t ht htu hrest
                · have htn2 : t.name = n := by
                    rcases List.mem_cons.mp htn with h | h
                    · exact h
                    · exact absurd h hrest
                  rcases ih2 t ht with hold | hnamed
                  · rcases List.mem_append.mp hold with hts | hsing
                    · exact absurd (by
                        have := ingredient_match_mem_filter hts htu htn2
                        rwa [hf] at this) (List.not_mem_nil t)
                    · rw [List.mem_singleton.mp hsing]
                      exact hacc2
                  · exact absurd hnamed.2 hrest
          | cons tx more =>
              cases more with
              | nil =>
                  simp only [get_or_create_ingredient, hf, Except.ok.injEq,
                    Prod.mk.injEq] at hstep
                  obtain ⟨h1, h2, h3⟩ := hstep
                  subst h1; subst h2; subst h3
                  have htxf : tx ∈ ts.filter (fun x => x.user == u && x.name == n) := by
                    rw [hf]; exact List.mem_singleton.mpr rfl
                  have htx := List.mem_filter.mp htxf
                  have htxu : tx.user = u := by
                    have := htx.2
                    simp only [Bool.and_eq_true, beq_iff_eq] at this
                    exact this.1
                  have htxn : tx.name = n := by
                    have := htx.2
                    simp only [Bool.and_eq_true, beq_iff_eq] at this
                    exact this.2
                  refine ⟨ih1, ?_, ?_, ?_, ?_, ?_⟩
                  · intro t ht
                    rcases ih2 t ht with hold | hnamed
                    · exact Or.inl hold
                    · exact Or.inr ⟨hnamed.1, List.mem_cons_of_mem n hnamed.2⟩
                  · intro i hi
                    exact ih3 i (mem_m2mAdd.mpr (Or.inl hi))
                  · intro i hi
                    rcases ih4 i hi with hm | ⟨t, ht, hti, htu2, htn2⟩
                    · rcases mem_m2mAdd.mp hm with hia | rfl
                      · exact Or.inl hia
                      · exact Or.inr ⟨tx, ih1 tx htx.1, rfl, htxu,
                          htxn ▸ List.mem_cons_self n rest⟩
                    · exact Or.inr ⟨t, ht, hti, htu2, List.mem_cons_of_mem n htn2⟩
                  · intro m hm
                    rcases List.mem_cons.mp hm with rfl | hmrest
                    · exact ⟨tx, ih1 tx htx.1, htxu, htxn, hacc2⟩
                    · exact ih5 m hmrest
                  · intro t ht htu htn
                    by_cases hrest : t.name ∈ rest
                    · exact ih6 t ht htu hrest
                    · have htn2 : t.name = n := by
                        rcases List.mem_cons.mp htn with h | h
                        · exact h
                        · exact absurd h hrest
                      rcases ih2 t ht with hold | hnamed
                      · have : t ∈ ts.filter (fun x => x.user == u && x.name == n) :=
                          ingredient_match_mem_filter hold htu htn2
                        rw [hf] at this
                        rw [List.mem_singleton.mp this]
                        exact hacc2
                      · exact absurd hnamed.2 hrest
              | cons ty more2 =>
                  simp only [get_or_create_ingredient, hf] at hstep
                  exact Except.noConfusion hstep

theorem exceptBind_ok {e a b : Type} (x : a) (f : a → Except e b) :
    (Except.ok x >>= f) = f x := rfl

theorem exceptBind_error {e a b : Type} (err : e) (f : a → Except e b) :
    (Except.error err >>= f : Except e b) = Except.error err := rfl

/-- Decomposition of a successful `RecipeModelSerializer.update`: the
final store/recipe components are exactly what the tri-state branches
produce — untouched tables and associations for an absent field, the
`_get_or_create_*` results for a present one. -/
theorem serializer_update_parts {s : Store} {u : Nat} {inst : Recipe}
    {p : RecipePatch} {s2 : Store} {r2 : Recipe}
    (hok : serializer_update s u inst p = Except.ok (s2, r2)) :
    (p.tag = none → r2.tag = inst.tag ∧ s2.tags = s.tags) ∧
    (∀ names, p.tag = some names → ∃ nextT,
      get_or_create_tags u names s.tags s.nextTagId [] =
        Except.ok (s2.tags, nextT, r2.tag)) ∧
    (p.ingredients = none → r2.ingredients = inst.ingredients ∧
      s2.ingredients = s.ingredients) ∧
    (∀ names, p.ingredients = some names → ∃ nextI,
      get_or_create_ingredients u names s.ingredients s.nextIngredientId [] =
        Except.ok (s2.ingredients, nextI, r2.ingredients)) := by
  cases htag : p.tag with
  | none =>
      cases hing : p.ingredients with
      | none =>
          simp only [serializer_update, updateTagsStep, updateIngredientsStep, htag,
            hing, exceptBind_ok, Except.ok.injEq, Prod.mk.injEq] at hok
          obtain ⟨rfl, rfl⟩ := hok
          refine ⟨fun _ => ⟨by simp [applyScalars], by simp [saveRecipe]⟩,
            fun names h => Option.noConfusion h,
            fun _ => ⟨by simp [applyScalars], by simp [saveRecipe]⟩,
            fun names h => Option.noConfusion h⟩
      | some inames =>
          cases hgocI : get_or_create_ingredients u inames s.ingredients
              s.nextIngredientId [] with
          | error e =>
              simp only [serializer_update, updateTagsStep, updateIngredientsStep,
                htag, hing, hgocI, exceptBind_ok, exceptBind_error] at hok
              exact Except.noConfusion hok
          | ok res =>
              obtain ⟨ings, nextI, rings⟩ := res
              simp only [serializer_update, updateTagsStep, updateIngredientsStep,
                htag, hing, hgocI, exceptBind_ok, Except.ok.injEq,
                Prod.mk.injEq] at hok
              obtain ⟨rfl, rfl⟩ := hok
              refine ⟨fun _ => ⟨by simp [applyScalars], by simp [saveRecipe]⟩,
                fun names h => Option.noConfusion h,
                fun h => Option.noConfusion h,
                fun names h => ?_⟩
              injection h with h2
              subst h2
              exact ⟨nextI, by simpa [saveRecipe, applyScalars] using hgocI⟩
  | some tnames =>
      cases hgocT : get_or_create_tags u tnames s.tags s.nextTagId [] with
      | error e =>
          simp only [serializer_update, updateTagsStep, htag, hgocT,
            exceptBind_error] at hok
          exact Except.noConfusion hok
      | ok resT =>
          obtain ⟨ts, nextT, rtags⟩ := resT
          cases hing : p.ingredients with
          | none =>
              simp only [serializer_update, updateTagsStep, updateIngredientsStep,
                htag, hing, hgocT, exceptBind_ok, Except.ok.injEq,
                Prod.mk.injEq] at hok
              obtain ⟨rfl, rfl⟩ := hok
              refine ⟨fun h => Option.noConfusion h,
                fun names h => ?_,
                fun _ => ⟨by simp [applyScalars], by simp [saveRecipe]⟩,
                fun names h => Option.noConfusion h⟩
              injection h with h2
              subst h2
              exact ⟨nextT, by simpa [saveRecipe, applyScalars] using hgocT⟩
          | some inames =>
              cases hgocI : get_or_create_ingredients u inames s.ingredients
                  s.nextIngredientId [] with
              | error e =>
                  simp only [serializer_update, updateTagsStep,
                    updateIngredientsStep, htag, hing, hgocT, hgocI,
                    exceptBind_ok, exceptBind_error] at hok
                  exact Except.noConfusion hok
              | ok resI =>
                  obtain ⟨ings, nextI, rings⟩ := resI
                  simp only [serializer_update, updateTagsStep,
                    updateIngredientsStep, htag, hing, hgocT, hgocI,
                    exceptBind_ok, Except.ok.injEq, Prod.mk.injEq] at hok
                  obtain ⟨rfl, rfl⟩ := hok
                  refine ⟨fun h => Option.noConfusion h,
                    fun names h => ?_,
                    fun h => Option.noConfusion h,
                    fun names h => ?_⟩
                  · injection h with h2
                    subst h2
                    exact ⟨nextT, by simpa [saveRecipe, applyScalars] using hgocT⟩
                  · injection h with h2
                    subst h2
                    exact ⟨nextI, by simpa [saveRecipe, applyScalars] using hgocI⟩

/-! ## Claim theorems -/

/-- C8: for every store, password and extra fields, `create_user` with an
empty email or an empty username fails with the manager's validation
error (one of the two `ValueError`s it raises for missing fields) and
persists no user — the store is left exactly as it was. -/
theorem createUser_blank_fails (s : UserStore) (email username password : String)
    (extra : ExtraFields) (h : email = "" ∨ username = "") :
    (∃ e, create_user s email username password extra = Except.error e ∧
        (e = UserError.emailMustBeSet ∨ e = UserError.usernameMustBeSet)) ∧
    runCreateUser s email username password extra = (s, none) := by
  by_cases he : email = ""
  · exact ⟨⟨UserError.emailMustBeSet, by simp [create_user, he], Or.inl rfl⟩,
      by simp [runCreateUser, create_user, he]⟩
  · have hu : username = "" := h.resolve_left he
    exact ⟨⟨UserError.usernameMustBeSet, by simp [create_user, he, hu], Or.inr rfl⟩,
      by simp [runCreateUser, create_user, he, hu]⟩

/-- Witness for C8 at both concrete inputs of the claim:
`createUser('', u, p)` and `createUser(e, '', p)`. -/
theorem createUser_blank_fails_witness :
    ((∃ e, create_user {} "" "bob" "pw" {} = Except.error e ∧
        (e = UserError.emailMustBeSet ∨ e = UserError.usernameMustBeSet)) ∧
      runCreateUser {} "" "bob" "pw" {} = ({}, none)) ∧
    ((∃ e, create_user {} "a@b.c" "" "pw" {} = Except.error e ∧
        (e = UserError.emailMustBeSet ∨ e = UserError.usernameMustBeSet)) ∧
      runCreateUser {} "a@b.c" "" "pw" {} = ({}, none)) :=
  ⟨createUser_blank_fails {} "" "bob" "pw" {} (Or.inl rfl),
    createUser_blank_fails {} "a@b.c" "" "pw" {} (Or.inr rfl)⟩

/-- C9 is false as stated: `create_superuser` only `setdefault`s
`is_verified`, so a caller explicitly passing `is_verified=False` gets a
*successful* call whose resulting user has `is_verified = false`. -/
theorem createSuperuser_verified_not_forced :
    (create_superuser {} "a@b.c" "u" "pw" { is_verified := some false }).toOption.map
        (fun p => p.2.is_verified) = some false := by decide

/-- C9 (amended): a successful `create_superuser` call yields
`is_staff = is_superuser = true`, and yields `is_verified = true`
(resp. `is_active = true`) whenever the caller did not explicitly
override that flag; a call explicitly passing `is_staff=false` or
`is_superuser=false` always fails. -/
theorem createSuperuser_flags (s : UserStore) (email username password : String)
    (extra : ExtraFields) :
    (∀ s2 usr, create_superuser s email username password extra = Except.ok (s2, usr) →
      usr.is_staff = true ∧ usr.is_superuser = true ∧
      (extra.is_verified = none → usr.is_verified = true) ∧
      (extra.is_active = none → usr.is_active = true)) ∧
    (extra.is_staff = some false →
      create_superuser s email username password extra =
        Except.error UserError.staffNotTrue) ∧
    (extra.is_superuser = some false →
      ∃ e, create_superuser s email username password extra = Except.error e) := by
  refine ⟨?_, ?_, ?_⟩
  · intro s2 usr hok
    by_cases hst : extra.is_staff.getD true = true
    · by_cases hsu : extra.is_superuser.getD true = true
      · have hok2 : create_user s email username password
            { is_active := some (extra.is_active.getD true)
              is_verified := some (extra.is_verified.getD true)
              is_staff := some (extra.is_staff.getD true)
              is_superuser := some (extra.is_superuser.getD true) } =
            Except.ok (s2, usr) := by
          simpa [create_superuser, hst, hsu] using hok
        simp only [create_user] at hok2
        split at hok2
        · exact absurd hok2 (by simp)
        · split at hok2
          · exact absurd hok2 (by simp)
          · split at hok2
            · exact absurd hok2 (by simp)
            · rw [Except.ok.injEq, Prod.mk.injEq] at hok2
              obtain ⟨-, husr⟩ := hok2
              subst husr
              exact ⟨by simp [hst], by simp [hsu],
                fun hv => by simp [hv], fun ha => by simp [ha]⟩
      · exact absurd hok (by simp [create_superuser, hst, hsu])
    · exact absurd hok (by simp [create_superuser, hst])
  · intro hstaff
    simp [create_superuser, hstaff]
  · intro hsuper
    by_cases hstaff : extra.is_staff.getD true = true
    · exact ⟨UserError.superuserNotTrue, by simp [create_superuser, hstaff, hsuper]⟩
    · exact ⟨UserError.staffNotTrue, by simp [create_superuser, hstaff]⟩

/-- Witness for C9 (amended) at a concrete input: a plain
`create_superuser` with no extra fields yields all four flags true, and
explicitly passing `is_superuser=false` fails. -/
theorem createSuperuser_flags_witness :
    ((⟨1, "a@b.c", "u", "hashed:pw", true, true, true, true⟩ : User).is_staff = true ∧
      (⟨1, "a@b.c", "u", "hashed:pw", true, true, true, true⟩ : User).is_superuser = true ∧
      (⟨1, "a@b.c", "u", "hashed:pw", true, true, true, true⟩ : User).is_verified = true ∧
      (⟨1, "a@b.c", "u", "hashed:pw", true, true, true, true⟩ : User).is_active = true) ∧
    (∃ e, create_superuser {} "a@b.c" "u" "pw" { is_superuser := some false } =
      Except.error e) := by
  constructor
  · obtain ⟨h1, h2, h3, h4⟩ := (createSuperuser_flags {} "a@b.c" "u" "pw" {}).1
      { users := [⟨1, "a@b.c", "u", "hashed:pw", true, true, true, true⟩], nextUserId := 2 }
      ⟨1, "a@b.c", "u", "hashed:pw", true, true, true, true⟩ rfl
    exact ⟨h1, h2, h3 rfl, h4 rfl⟩
  · exact (createSuperuser_flags {} "a@b.c" "u" "pw"
      { is_superuser := some false }).2.2 rfl

/-- C1: for every state of the store, every filter combination and every
requesting user `A`, the list pipelines over recipes, tags and
ingredients — and the detail-route lookup — only ever produce rows owned
by `A`. -/
theorem scoped_rows_owned (s : Store) (A : Nat)
    (tagIds ingredientIds : Option (List Int)) (assignedOnly : Bool) :
    (∀ r ∈ listRecipes s A tagIds ingredientIds, r.user = A) ∧
    (∀ t ∈ listTags s A assignedOnly, t.user = A) ∧
    (∀ i ∈ listIngredients s A assignedOnly, i.user = A) ∧
    (∀ rid r, get_object s A rid = some r → r.user = A) := by
  refine ⟨?_, ?_, ?_, ?_⟩
  · intro r hr; exact (mem_listRecipes.mp hr).2.1
  · intro t ht; exact (mem_listTags.mp ht).2.1
  · intro i hi; exact (mem_listIngredients.mp hi).2.1
  · intro rid r h
    exact (mem_listRecipes.mp (List.mem_of_find?_eq_some h)).2.1

/-- Witness for C1 on a store interleaving rows of users 7 and 8. -/
theorem scoped_rows_owned_witness :
    ({ id := 1, user := 7 } : Recipe).user = 7 :=
  (scoped_rows_owned
      { recipes := [{ id := 1, user := 7 }, { id := 2, user := 8 }] } 7
      none none false).1 { id := 1, user := 7 } (by decide)

/-- C2: a retrieve, update or delete request by user `A` naming a recipe
`R` owned by a different user fails with NotFound (not Forbidden) and
leaves the store — hence `R`'s fields and associations — unchanged. -/
theorem other_owner_notFound (s : Store) (A : Nat) (R : Recipe) (p : RecipePatch)
    (_hR : R ∈ s.recipes) (hAB : R.user ≠ A)
    (huniq : ∀ r ∈ s.recipes, r.id = R.id → r = R) :
    retrieveRecipe s A R.id = Except.error ApiError.notFound ∧
    updateRecipe s A R.id p = (s, Except.error ApiError.notFound) ∧
    destroyRecipe s A R.id = (s, Except.error ApiError.notFound) := by
  have hobj : get_object s A R.id = none := by
    cases hfind : get_object s A R.id with
    | none => rfl
    | some r =>
        have hmem := List.mem_of_find?_eq_some hfind
        have hid : r.id = R.id := by simpa using List.find?_some hfind
        have hrs : r ∈ s.recipes := (mem_listRecipes.mp hmem).1
        have huser : r.user = A := (mem_listRecipes.mp hmem).2.1
        rw [huniq r hrs hid] at huser
        exact absurd huser hAB
  exact ⟨by simp [retrieveRecipe, hobj], by simp [updateRecipe, hobj],
    by simp [destroyRecipe, hobj]⟩

/-- Witness for C2: user 4 touching recipe 3 owned by user 9. -/
theorem other_owner_notFound_witness :
    retrieveRecipe { recipes := [{ id := 3, user := 9 }] } 4 3 =
        Except.error ApiError.notFound ∧
    updateRecipe { recipes := [{ id := 3, user := 9 }] } 4 3 {} =
        ({ recipes := [{ id := 3, user := 9 }] }, Except.error ApiError.notFound) ∧
    destroyRecipe { recipes := [{ id := 3, user := 9 }] } 4 3 =
        ({ recipes := [{ id := 3, user := 9 }] }, Except.error ApiError.notFound) :=
  other_owner_notFound { recipes := [{ id := 3, user := 9 }] } 4
    { id := 3, user := 9 } {} (by decide) (by decide) (by decide)

/-- C6 (amended): with `assigned_only=1` a row owned by `u` is returned
iff it is attached to at least one recipe — regardless of that recipe's
owner, since `filter(recipe__isnull=False)` never consults the attached
recipe's owner — and the result contains no duplicate rows. -/
theorem assignedOnly_iff_attached (s : Store) (u : Nat) :
    (∀ t, t ∈ listTags s u true ↔
      t ∈ s.tags ∧ t.user = u ∧ ∃ r ∈ s.recipes, t.id ∈ r.tag) ∧
    (listTags s u true).Nodup ∧
    (∀ i, i ∈ listIngredients s u true ↔
      i ∈ s.ingredients ∧ i.user = u ∧ ∃ r ∈ s.recipes, i.id ∈ r.ingredients) ∧
    (listIngredients s u true).Nodup := by
  refine ⟨?_, List.nodup_dedup _, ?_, List.nodup_dedup _⟩
  · intro t; rw [mem_listTags]; tauto
  · intro i; rw [mem_listIngredients]; tauto


/-- C6 as stated is false: in `crossOwnerStore` user 1's tag is attached
only to a recipe owned by user 2, yet the `assigned_only=1` listing for
user 1 returns it. -/
theorem assignedOnly_crossOwner_counterexample :
    ¬ (∀ t ∈ listTags crossOwnerStore 1 true,
        ∃ r ∈ crossOwnerStore.recipes, r.user = 1 ∧ t.id ∈ r.tag) := by decide

/-- `order_by('-id')` really sorts by descending id. -/
theorem pairwise_orderByIdDesc (l : List Recipe) :
    (orderByIdDesc l).Pairwise (fun a b => b.id ≤ a.id) := by
  have h := @pairwise_sortBy Recipe (fun a b : Recipe => decide (b.id ≤ a.id))
    (fun a b hf => by simp at hf ⊢; omega)
    (fun a b c h1 h2 => by simp at h1 h2 ⊢; omega) l
  exact h.imp (fun hx => by simpa using hx)

/-- C7: `listRecipes` returns exactly the recipes owned by the requesting
user that match each given id filter (at least one attached tag /
ingredient in the respective set), each exactly once, ordered by
descending recipe id. -/
theorem listRecipes_characterisation (s : Store) (u : Nat)
    (tagIds ingredientIds : Option (List Int)) :
    (∀ r, r ∈ listRecipes s u tagIds ingredientIds ↔
      r ∈ s.recipes ∧ r.user = u ∧
      (∀ ids, tagIds = some ids → ∃ t ∈ r.tag, Int.ofNat t ∈ ids) ∧
      (∀ ids, ingredientIds = some ids → ∃ t ∈ r.ingredients, Int.ofNat t ∈ ids)) ∧
    (listRecipes s u tagIds ingredientIds).Nodup ∧
    (listRecipes s u tagIds ingredientIds).Pairwise (fun a b => b.id ≤ a.id) := by
  refine ⟨fun r => mem_listRecipes, List.nodup_dedup _, ?_⟩
  exact List.Pairwise.sublist (List.dedup_sublist _) (pairwise_orderByIdDesc _)

/-- Witness for C7: with filter `tags=[1]`, only the owner's recipe that
carries tag 1 is listed. -/
theorem listRecipes_characterisation_witness :
    ({ id := 2, user := 5, tag := [1] } : Recipe) ∈
      listRecipes
        { recipes := [{ id := 1, user := 5 }, { id := 2, user := 5, tag := [1] }] }
        5 (some [1]) none :=
  ((listRecipes_characterisation
      { recipes := [{ id := 1, user := 5 }, { id := 2, user := 5, tag := [1] }] }
      5 (some [1]) none).1 _).mpr
    ⟨by decide, rfl,
      fun ids h => by
        injection h with h2
        subst h2
        exact ⟨1, by decide, by decide⟩,
      fun ids h => Option.noConfusion h⟩

/-- C10: list-endpoint query parsing is not total.  A `tags` /
`ingredients` parameter with a non-numeric segment, and a non-numeric or
empty `assigned_only` value, escape as an unhandled conversion error
(`ValueError`, not a field-keyed validation failure); only an entirely
empty `tags`/`ingredients` string is silently treated as no filter. -/
theorem query_parsing_not_total (s : Store) (u : Nat) :
    recipeGetQueryset s u (some "1,abc") none = Except.error ApiError.valueError ∧
    recipeGetQueryset s u none (some "1,abc") = Except.error ApiError.valueError ∧
    recipeGetQueryset s u (some "1,") none = Except.error ApiError.valueError ∧
    tagGetQueryset s u (some "abc") = Except.error ApiError.valueError ∧
    tagGetQueryset s u (some "") = Except.error ApiError.valueError ∧
    ingredientGetQueryset s u (some "abc") = Except.error ApiError.valueError ∧
    recipeGetQueryset s u (some "") (some "") =
      Except.ok (listRecipes s u none none) ∧
    tagGetQueryset s u (some "1") = Except.ok (listTags s u true) :=
  ⟨rfl, rfl, rfl, rfl, rfl, rfl, rfl, rfl⟩

/-- C3: tri-state semantics of the association fields on update: an
absent `tag` (resp. `ingredients`) field leaves the recipe's current
associations unchanged; a present empty list leaves zero associations; a
present non-empty list fully replaces the associations with exactly the
find-or-create results of the given names — an id is attached iff it is
the id of a final-table row owned by the authenticated user whose name is
among the given names. -/
theorem update_association_tristate (s : Store) (u : Nat) (inst : Recipe)
    (p : RecipePatch) (s2 : Store) (r2 : Recipe)
    (hok : serializer_update s u inst p = Except.ok (s2, r2)) :
    (p.tag = none → r2.tag = inst.tag) ∧
    (p.tag = some [] → r2.tag = []) ∧
    (∀ names, p.tag = some names →
      ∀ i, i ∈ r2.tag ↔ ∃ t ∈ s2.tags, t.id = i ∧ t.user = u ∧ t.name ∈ names) ∧
    (p.ingredients = none → r2.ingredients = inst.ingredients) ∧
    (p.ingredients = some [] → r2.ingredients = []) ∧
    (∀ names, p.ingredients = some names →
      ∀ i, i ∈ r2.ingredients ↔
        ∃ t ∈ s2.ingredients, t.id = i ∧ t.user = u ∧ t.name ∈ names) := by
  obtain ⟨hT0, hTs, hI0, hIs⟩ := serializer_update_parts hok
  refine ⟨fun h => (hT0 h).1, ?_, ?_, fun h => (hI0 h).1, ?_, ?_⟩
  · intro h
    obtain ⟨nextT, hgoc⟩ := hTs [] h
    simp only [get_or_create_tags, Except.ok.injEq, Prod.mk.injEq] at hgoc
    exact hgoc.2.2.symm
  · intro names h i
    obtain ⟨nextT, hgoc⟩ := hTs names h
    obtain ⟨g1, g2, g3, g4, g5, g6⟩ := gocTags_spec hgoc
    constructor
    · intro hi
      rcases g4 i hi with habs | ⟨t, ht, hti, htu, htn⟩
      · exact absurd habs (List.not_mem_nil i)
      · exact ⟨t, ht, hti, htu, htn⟩
    · rintro ⟨t, ht, rfl, htu, htn⟩
      exact g6 t ht htu htn
  · intro h
    obtain ⟨nextI, hgoc⟩ := hIs [] h
    simp only [get_or_create_ingredients, Except.ok.injEq, Prod.mk.injEq] at hgoc
    exact hgoc.2.2.symm
  · intro names h i
    obtain ⟨nextI, hgoc⟩ := hIs names h
    obtain ⟨g1, g2, g3, g4, g5, g6⟩ := gocIngredients_spec hgoc
    constructor
    · intro hi
      rcases g4 i hi with habs | ⟨t, ht, hti, htu, htn⟩
      · exact absurd habs (List.not_mem_nil i)
      · exact ⟨t, ht, hti, htu, htn⟩
    · rintro ⟨t, ht, rfl, htu, htn⟩
      exact g6 t ht htu htn

/-- Witness for C3: updating `c3Inst` with tag list `["new"]` and empty
ingredient list attaches exactly the find-or-create result for `"new"`
and leaves zero ingredients. -/
theorem update_association_tristate_witness :
    c3R2.ingredients = ([] : List Nat) ∧
    (6 ∈ c3R2.tag ↔
      ∃ t ∈ c3Store2.tags, t.id = 6 ∧ t.user = 1 ∧ t.name ∈ ["new"]) :=
  ⟨(update_association_tristate c3Store 1 c3Inst c3Patch c3Store2 c3R2
      rfl).2.2.2.2.1 rfl,
    (update_association_tristate c3Store 1 c3Inst c3Patch c3Store2 c3R2
      rfl).2.2.1 ["new"] rfl 6⟩

/-- C4: creating a recipe with tag names `[n1, n2]` when a tag `(u, n1)`
already exists (as the single matching row `tx`) and no `(u, n2)` row
exists reuses `tx` (same id, no new row for `n1`), creates exactly one
new row for `n2` (owner-scoped, with the next primary key), and leaves
the recipe with exactly those 2 tags; duplicate names in the input
(`[n1, n1]`) produce a single attachment and no new rows. -/
theorem create_find_or_create (s : Store) (u : Nat) (f : RecipeFields)
    (n1 n2 : String) (tx : Tag)
    (hf1 : s.tags.filter (fun t => t.user == u && t.name == n1) = [tx])
    (hf2 : s.tags.filter (fun t => t.user == u && t.name == n2) = [])
    (hfresh : tx.id ≠ s.nextTagId) :
    (∃ s2 r, serializer_create s u f [n1, n2] [] = Except.ok (s2, r) ∧
      r.tag = [tx.id, s.nextTagId] ∧
      s2.tags = s.tags ++ [⟨s.nextTagId, u, n2⟩] ∧
      r.tag.length = 2) ∧
    (∃ s2 r, serializer_create s u f [n1, n1] [] = Except.ok (s2, r) ∧
      r.tag = [tx.id] ∧ s2.tags = s.tags) := by
  have hgoc1 : get_or_create_tags u [n1, n2] s.tags s.nextTagId [] =
      Except.ok (s.tags ++ [⟨s.nextTagId, u, n2⟩], s.nextTagId + 1,
        [tx.id, s.nextTagId]) := by
    simp [get_or_create_tags, get_or_create_tag, hf1, hf2, m2mAdd,
      exceptBind_ok, hfresh, Ne.symm hfresh]
  have hgoc2 : get_or_create_tags u [n1, n1] s.tags s.nextTagId [] =
      Except.ok (s.tags, s.nextTagId, [tx.id]) := by
    simp [get_or_create_tags, get_or_create_tag, hf1, m2mAdd, exceptBind_ok]
  have hcr1 : serializer_create s u f [n1, n2] [] =
      Except.ok
        ({ s with
            recipes := s.recipes ++
              [{ id := s.nextRecipeId
                 user := u
                 slug := f.slug
                 title := f.title
                 description := f.description
                 make_time_minutes := f.make_time_minutes
                 price := f.price
                 link := f.link
                 tag := [tx.id, s.nextTagId]
                 ingredients := [] }]
            nextRecipeId := s.nextRecipeId + 1
            tags := s.tags ++ [⟨s.nextTagId, u, n2⟩]
            nextTagId := s.nextTagId + 1 },
         { id := s.nextRecipeId
           user := u
           slug := f.slug
           title := f.title
           description := f.description
           make_time_minutes := f.make_time_minutes
           price := f.price
           link := f.link
           tag := [tx.id, s.nextTagId]
           ingredients := [] }) := by
    simp only [serializer_create, hgoc1, get_or_create_ingredients, exceptBind_ok]
  have hcr2 : serializer_create s u f [n1, n1] [] =
      Except.ok
        ({ s with
            recipes := s.recipes ++
              [{ id := s.nextRecipeId
                 user := u
                 slug := f.slug
                 title := f.title
                 description := f.description
                 make_time_minutes := f.make_time_minutes
                 price := f.price
                 link := f.link
                 tag := [tx.id]
                 ingredients := [] }]
            nextRecipeId := s.nextRecipeId + 1 },
         { id := s.nextRecipeId
           user := u
           slug := f.slug
           title := f.title
           description := f.description
           make_time_minutes := f.make_time_minutes
           price := f.price
           link := f.link
           tag := [tx.id]
           ingredients := [] }) := by
    simp only [serializer_create, hgoc2, get_or_create_ingredients, exceptBind_ok]
  exact ⟨⟨_, _, hcr1, rfl, rfl, rfl⟩, ⟨_, _, hcr2, rfl, rfl⟩⟩

/-- Witness for C4: user 1 creating with names `["x", "y"]` over a store
holding tag `(7, 1, "x")` and next primary key 8. -/
theorem create_find_or_create_witness :
    (∃ s2 r, serializer_create { tags := [⟨7, 1, "x"⟩], nextTagId := 8 } 1 {}
        ["x", "y"] [] = Except.ok (s2, r) ∧
      r.tag = [7, 8] ∧
      s2.tags = [⟨7, 1, "x"⟩] ++ [⟨8, 1, "y"⟩] ∧
      r.tag.length = 2) ∧
    (∃ s2 r, serializer_create { tags := [⟨7, 1, "x"⟩], nextTagId := 8 } 1 {}
        ["x", "x"] [] = Except.ok (s2, r) ∧
      r.tag = [7] ∧ s2.tags = [⟨7, 1, "x"⟩]) :=
  create_find_or_create { tags := [⟨7, 1, "x"⟩], nextTagId := 8 } 1 {}
    "x" "y" ⟨7, 1, "x"⟩ (by decide) (by decide) (by decide)

/-- C5: write requests are atomic at the request boundary (the
transaction wrapper is modelled from the spec, see `createRecipe` /
`updateRecipe`): a failing create or update leaves the store exactly in
its prior state, and a successful update with a present association field
leaves no payload name unattached — every given name has a matching
owner-scoped row in the final store attached to the updated recipe. -/
theorem write_atomicity (s : Store) (u rid : Nat) (p : RecipePatch)
    (f : RecipeFields) (tagNames ingredientNames : List String) :
    (∀ e, (updateRecipe s u rid p).2 = Except.error e →
      (updateRecipe s u rid p).1 = s) ∧
    (∀ e, (createRecipe s u f tagNames ingredientNames).2 = Except.error e →
      (createRecipe s u f tagNames ingredientNames).1 = s) ∧
    (∀ s2 r2 names, updateRecipe s u rid p = (s2, Except.ok r2) →
      p.tag = some names →
      ∀ n ∈ names, ∃ t ∈ s2.tags, t.user = u ∧ t.name = n ∧ t.id ∈ r2.tag) ∧
    (∀ s2 r2 names, updateRecipe s u rid p = (s2, Except.ok r2) →
      p.ingredients = some names →
      ∀ n ∈ names, ∃ t ∈ s2.ingredients, t.user = u ∧ t.name = n ∧
        t.id ∈ r2.ingredients) := by
  have hupd : ∀ s2 r2, updateRecipe s u rid p = (s2, Except.ok r2) →
      ∃ inst, get_object s u rid = some inst ∧
        serializer_update s u inst p = Except.ok (s2, r2) := by
    intro s2 r2 h
    cases hobj : get_object s u rid with
    | none =>
        simp only [updateRecipe, hobj] at h
        exact absurd (congrArg Prod.snd h) (by simp)
    | some inst =>
        cases hser : serializer_update s u inst p with
        | error e =>
            simp only [updateRecipe, hobj, hser] at h
            exact absurd (congrArg Prod.snd h) (by simp)
        | ok res =>
            obtain ⟨s3, r3⟩ := res
            simp only [updateRecipe, hobj, hser, Prod.mk.injEq,
              Except.ok.injEq] at h
            obtain ⟨h1, h2⟩ := h
            exact ⟨inst, rfl, by rw [hser, h1, h2]⟩
  refine ⟨?_, ?_, ?_, ?_⟩
  · intro e he
    cases hobj : get_object s u rid with
    | none => simp [updateRecipe, hobj]
    | some inst =>
        cases hser : serializer_update s u inst p with
        | error e2 => simp [updateRecipe, hobj, hser]
        | ok res =>
            obtain ⟨s3, r3⟩ := res
            simp only [updateRecipe, hobj, hser] at he
            exact absurd he (by simp)
  · intro e he
    cases hser : serializer_create s u f tagNames ingredientNames with
    | error e2 => simp [createRecipe, hser]
    | ok res =>
        obtain ⟨s3, r3⟩ := res
        simp only [createRecipe, hser] at he
        exact absurd he (by simp)
  · intro s2 r2 names h hptag
    obtain ⟨inst, hobj, hser⟩ := hupd s2 r2 h
    obtain ⟨-, hTs, -, -⟩ := serializer_update_parts hser
    obtain ⟨nextT, hgoc⟩ := hTs names hptag
    exact (gocTags_spec hgoc).2.2.2.2.1
  · intro s2 r2 names h hping
    obtain ⟨inst, hobj, hser⟩ := hupd s2 r2 h
    obtain ⟨-, -, -, hIs⟩ := serializer_update_parts hser
    obtain ⟨nextI, hgoc⟩ := hIs names hping
    exact (gocIngredients_spec hgoc).2.2.2.2.1

/-- Witness for C5: a failing update (NotFound on an empty store) leaves
the store unchanged. -/
theorem write_atomicity_witness :
    (updateRecipe {} 1 1 {}).1 = ({} : Store) :=
  (write_atomicity {} 1 1 {} {} [] []).1 ApiError.notFound rfl

end RecipeApp
